import Mathlib

/-!
Verification development for the `blurry` SDF font-atlas generator.

The Rust sources are shallowly embedded over exact rationals (ℚ stands in
for `f32`; real-arithmetic idealization).  Non-finite `f32` intermediates
(NaN and ±∞, produced by division by zero) are modelled with `Option`:
`none` marks a computation that would be non-finite in the source, which
the source subsequently rejects via range checks (`(0.0..=1.0).contains`
is false for NaN).  Rust panics are modelled as `Except.error`.

The external rectangle packer (the `crunch` crate) and the font file
parser (`ttf_parser`) are out of scope per the specification; they are
abstracted as oracle parameters (`pack`, and the `FontFace` record of
query functions) so the driver logic under verification is exactly the
repository's.
-/

namespace Blurry

/-! ### math.rs — fixed-degree polynomial algebra

`Polynomial<N>` stores `N` coefficients, highest power first
(`coeffs[0]·t^(N−1) + … + coeffs[N−1]`).  We embed it as a coefficient
list, highest power first, which covers every degree the sources use. -/

/-- `Polynomial::value` — Horner evaluation: start from the leading
coefficient and fold `acc * t + c` over the remaining ones. -/
def polyValue (coeffs : List ℚ) (t : ℚ) : ℚ :=
  match coeffs with
  | [] => 0
  | c :: rest => rest.foldl (fun acc ci => acc * t + ci) c

/-- `Polynomial::derivative` — coefficient at position `i` is multiplied
by its exponent `N−1−i` and the constant term is dropped.  For the head
of a nonempty list the exponent is the length of the tail. -/
def polyDeriv : List ℚ → List ℚ
  | [] => []
  | [_] => []
  | c :: rest => (c * (rest.length : ℚ)) :: polyDeriv rest

/-- `Polynomial` element-wise subtraction (`impl Sub`). -/
def polySub (a b : List ℚ) : List ℚ := List.zipWith (fun x y => x - y) a b

/-- `Polynomial` element-wise addition (`impl Add`). -/
def polyAdd (a b : List ℚ) : List ℚ := List.zipWith (fun x y => x + y) a b

/-- `Polynomial` multiplication (`impl Mul`): convolution of coefficient
lists; result position `k` sums `a i * b j` over `i + j = k`. -/
def polyMul (a b : List ℚ) : List ℚ :=
  (List.range (a.length + b.length - 1)).map fun k =>
    ((List.range a.length).map fun i =>
      if i ≤ k ∧ k - i < b.length then a.getD i 0 * b.getD (k - i) 0 else 0).sum

/-- `Polynomial::pow2` — self-multiplication. -/
def polyPow2 (a : List ℚ) : List ℚ := polyMul a a

/-- `Polynomial::newtons_root` — `guess ← guess − P(guess)/P′(guess)`,
exactly `iters` times, with `P′` computed once by the caller of this
auxiliary.  A vanishing `P′(guess)` makes the Rust `f32` quotient
non-finite and the final result non-finite; we model that as `none`. -/
def newtonsIter (p dp : List ℚ) : ℕ → ℚ → Option ℚ
  | 0, guess => some guess
  | iters + 1, guess =>
    if polyValue dp guess = 0 then none
    else newtonsIter p dp iters (guess - polyValue p guess / polyValue dp guess)

/-- `Polynomial::newtons_root` entry point: computes the derivative once,
then runs the fixed iteration count. -/
def newtons_root (p : List ℚ) (guess : ℚ) (iters : ℕ) : Option ℚ :=
  newtonsIter p (polyDeriv p) iters guess

/-! ### edge.rs — segments -/

/-- `NEWTONS_ITERS` in edge.rs. -/
def NEWTONS_ITERS : ℕ := 4

/-- `Line { start, end }` (the Rust field `end` is spelled `stop` here). -/
structure Line where
  start : ℚ × ℚ
  stop : ℚ × ℚ

/-- `Line::point`: `(1−t)·start + t·end`, componentwise, with the source's
exact association `start * (1 - t) + end * t`. -/
def Line.point (l : Line) (t : ℚ) : ℚ × ℚ :=
  (l.start.1 * (1 - t) + l.stop.1 * t, l.start.2 * (1 - t) + l.stop.2 * t)

/-- `Line::direction`: the constant `end − start`. -/
def Line.direction (l : Line) (_t : ℚ) : ℚ × ℚ :=
  (l.stop.1 - l.start.1, l.stop.2 - l.start.2)

/-- `Line::nearest_t`: `t = −(v·u)/(v·v)` with `v = end−start`,
`u = start−p`; if `t ∈ [0,1]` return it, else the endpoint with smaller
squared distance.  When `v·v = 0` the Rust quotient is non-finite and
`contains` rejects it, so the guard carries the `vv ≠ 0` condition. -/
def Line.nearest_t (l : Line) (point : ℚ × ℚ) : ℚ :=
  let vx := l.stop.1 - l.start.1
  let vy := l.stop.2 - l.start.2
  let ux := l.start.1 - point.1
  let uy := l.start.2 - point.2
  let wx := l.stop.1 - point.1
  let wy := l.stop.2 - point.2
  let vu := vx * ux + vy * uy
  let vv := vx * vx + vy * vy
  let t := -vu / vv
  let s := ux * ux + uy * uy
  let e := wx * wx + wy * wy
  if vv ≠ 0 ∧ 0 ≤ t ∧ t ≤ 1 then t
  else if s < e then 0 else 1

/-- `QuadCurve { x_poly, y_poly }`, built by `QuadCurve::new` from start,
control and end points (Bernstein to power basis, degree 2). -/
structure QuadCurve where
  x_poly : List ℚ
  y_poly : List ℚ

/-- `QuadCurve::new`. -/
def QuadCurve.new (s c e : ℚ × ℚ) : QuadCurve :=
  { x_poly := [-2 * c.1 + s.1 + e.1, 2 * c.1 - 2 * s.1, s.1]
    y_poly := [-2 * c.2 + s.2 + e.2, 2 * c.2 - 2 * s.2, s.2] }

/-- `QuadCurve::point`. -/
def QuadCurve.point (q : QuadCurve) (t : ℚ) : ℚ × ℚ :=
  (polyValue q.x_poly t, polyValue q.y_poly t)

/-- `CubicCurve { x_poly, y_poly }`, built by `CubicCurve::new`
(Bernstein to power basis, degree 3). -/
structure CubicCurve where
  x_poly : List ℚ
  y_poly : List ℚ

/-- `CubicCurve::new`. -/
def CubicCurve.new (s cs ce e : ℚ × ℚ) : CubicCurve :=
  { x_poly := [-s.1 + 3 * cs.1 - 3 * ce.1 + e.1,
               3 * s.1 - 6 * cs.1 + 3 * ce.1,
               -3 * s.1 + 3 * cs.1, s.1]
    y_poly := [-s.2 + 3 * cs.2 - 3 * ce.2 + e.2,
               3 * s.2 - 6 * cs.2 + 3 * ce.2,
               -3 * s.2 + 3 * cs.2, s.2] }

/-- `CubicCurve::point`. -/
def CubicCurve.point (c : CubicCurve) (t : ℚ) : ℚ × ℚ :=
  (polyValue c.x_poly t, polyValue c.y_poly t)

/-- A constant polynomial padded to the same coefficient length as the
curve's polynomial, as the sources build `x_point` / `y_point`
(`[0,…,0, coordinate]`). -/
def constPoly (n : ℕ) (v : ℚ) : List ℚ := List.replicate (n - 1) 0 ++ [v]

/-- The five Newton seeds `0.0, 0.25, …, 1.0` produced by the sources'
`while test <= 1.0 { …; test += 0.25 }` loop (exact in both f32 and ℚ). -/
def newtonSeeds : List ℚ := [0, 1/4, 1/2, 3/4, 1]

/-- The squared-distance polynomial
`D = (x_poly − x_point)² + (y_poly − y_point)²` shared by
`QuadCurve::nearest_t` and `CubicCurve::nearest_t`. -/
def distSqPoly (xp yp : List ℚ) (point : ℚ × ℚ) : List ℚ :=
  polyAdd (polyPow2 (polySub xp (constPoly xp.length point.1)))
          (polyPow2 (polySub yp (constPoly yp.length point.2)))

/-- The seed loop body shared by `QuadCurve::nearest_t` and
`CubicCurve::nearest_t`: for each seed, refine a root of `D′` by four
Newton iterations; roots inside `[0,1]` with strictly smaller `D`
replace the running best.  A non-finite Newton result (`none`) is
rejected exactly as NaN fails the Rust range check. -/
def nearestBestFold (distSq dd : List ℚ) (seeds : List ℚ) (best : ℚ × ℚ) : ℚ × ℚ :=
  seeds.foldl
    (fun b s =>
      match newtons_root dd s NEWTONS_ITERS with
      | none => b
      | some root =>
        if 0 ≤ root ∧ root ≤ 1 then
          if polyValue distSq root < b.1 then (polyValue distSq root, root) else b
        else b)
    best

/-- The full shared `nearest_t` body: running best seeded with the better
of the endpoints `t = 0` / `t = 1`, then the Newton seed loop; returns
the best `t`. -/
def nearestTOf (xp yp : List ℚ) (point : ℚ × ℚ) : ℚ :=
  let distSq := distSqPoly xp yp point
  let dd := polyDeriv distSq
  let startD := polyValue distSq 0
  let endD := polyValue distSq 1
  let init := if startD < endD then (startD, (0 : ℚ)) else (endD, 1)
  (nearestBestFold distSq dd newtonSeeds init).2

/-- `QuadCurve::nearest_t` (edge.rs lines 170–199). -/
def QuadCurve.nearest_t (q : QuadCurve) (point : ℚ × ℚ) : ℚ :=
  nearestTOf q.x_poly q.y_poly point

/-- `CubicCurve::nearest_t` (edge.rs lines 264–293). -/
def CubicCurve.nearest_t (c : CubicCurve) (point : ℚ × ℚ) : ℚ :=
  nearestTOf c.x_poly c.y_poly point

/-! ### raster.rs — rastered size, rounding, pixel encoding, raster loop -/

/-- An integer glyph bounding box as delivered by the outline provider
(`ttf_parser::Rect`, design units). -/
structure BBox where
  x_min : ℤ
  y_min : ℤ
  x_max : ℤ
  y_max : ℤ
deriving DecidableEq

/-- The outline provider (`ttf_parser::Face`): the queries
`get_rastered_size` performs on it. -/
structure FontFace where
  height : ℤ
  glyphIndex : Char → Option ℕ
  glyphBoundingBox : ℕ → Option BBox

/-- The two panics `get_rastered_size` can raise: the explicit
`panic!` when `glyph_index` is `None`, and the `.unwrap()` on a missing
bounding box. -/
inductive RasterPanic where
  | glyphNotFound
  | noBoundingBox
deriving DecidableEq

/-- `RasteredSize` (raster.rs lines 5–27). -/
structure RasteredSize where
  pixel_width : ℕ
  pixel_height : ℕ
  left : ℚ
  right : ℚ
  top : ℚ
  bottom : ℚ
  left_clamped : ℚ
  left_clamped_internal_raster : ℚ
deriving DecidableEq

/-- Rust `f32::round`: round to nearest, ties away from zero. -/
def rustRound (q : ℚ) : ℤ :=
  if q < 0 then -⌊-q + 1/2⌋ else ⌊q + 1/2⌋

/-- Round to nearest with ties to even, the rounding the specification
prescribes for pixel extents (written from the spec's words, for
comparison with the source's `rustRound`). -/
def roundHalfToEven (q : ℚ) : ℤ :=
  if q - ⌊q⌋ < 1/2 then ⌊q⌋
  else if 1/2 < q - ⌊q⌋ then ⌊q⌋ + 1
  else if 2 ∣ ⌊q⌋ then ⌊q⌋ else ⌊q⌋ + 1

/-- Integer clamp, as `f32::clamp(lo, hi)` on an already-integral value. -/
def clampZ (v lo hi : ℤ) : ℤ := min (max v lo) hi

/-- `get_rastered_size` (raster.rs lines 29–80).  Panics (missing glyph
index, missing bounding box) are modelled as `Except.error`. -/
def get_rastered_size (padding_ratio : ℚ) (clamp_left : Bool) (font_size : ℚ)
    (face : FontFace) (ch : Char) : Except RasterPanic RasteredSize :=
  let face_height : ℚ := (face.height : ℚ)
  let padding := padding_ratio
  let left_padding := if clamp_left then 0 else padding
  let rel := fun (v : ℤ) => (v : ℚ) / face_height
  match face.glyphIndex ch with
  | none => .error .glyphNotFound
  | some glyph_id =>
    match face.glyphBoundingBox glyph_id with
    | none => .error .noBoundingBox
    | some bbox =>
      let edgeless_width := rel (bbox.x_max - bbox.x_min) + padding + left_padding
      let height := rel (bbox.y_max - bbox.y_min) + 2 * padding
      let pixel_width_f := clampZ (rustRound (edgeless_width * font_size)) 0 65535
      let pixel_height := (clampZ (rustRound (height * font_size)) 0 65535).toNat
      let left := rel bbox.x_min - padding
      let right := rel bbox.x_max + padding
      let top := rel bbox.y_max + padding
      let bottom := rel bbox.y_min - padding
      if clamp_left then
        let one_pixel := edgeless_width / (pixel_width_f : ℚ)
        .ok { pixel_width := pixel_width_f.toNat + 1
              pixel_height := pixel_height
              left := left, right := right, top := top, bottom := bottom
              left_clamped := rel bbox.x_min
              left_clamped_internal_raster := rel bbox.x_min - one_pixel }
      else
        .ok { pixel_width := pixel_width_f.toNat
              pixel_height := pixel_height
              left := left, right := right, top := top, bottom := bottom
              left_clamped := left
              left_clamped_internal_raster := left }

/-- The per-pixel SDF byte (raster.rs lines 244–248), as a function of
the (possibly vertex-smoothed) tangent `(dx, dy)`, the query point
`(x, y)`, the nearest curve point `(cx, cy)`, the square root `droot` of
the best squared distance, and the padding ratio.  `signum` of a
non-negative `f32` is `1.0`; `as u8` truncates toward zero. -/
def rasterByte (dx dy x y cx cy droot padding : ℚ) : ℕ :=
  let curve_side : ℚ := if dx * (y - cy) - dy * (x - cx) < 0 then -1 else 1
  let dist := droot / padding
  let signed_dist := 1/2 - curve_side * (dist * (1/2))
  (⌊(255 : ℚ) * (min (max signed_dist 0) 1)⌋).toNat

/-- Modelled from the spec's words for the same pixel:
`byte = round(255 · sdf)` with `sdf = 0.5 − side·(dist·0.5)` clamped to
`[0,1]` (for comparison with the source's `rasterByte`). -/
def specByteRound (dx dy x y cx cy droot padding : ℚ) : ℕ :=
  let side : ℚ := if dx * (y - cy) - dy * (x - cx) < 0 then -1 else 1
  let dist := droot / padding
  let sdf := min (max (1/2 - side * (dist * (1/2))) 0) 1
  (round ((255 : ℚ) * sdf)).toNat

/-- The amended spec formula: `byte = ⌊255 · sdf⌋` (truncation toward
zero of the non-negative product, as Rust's `as u8` narrowing does). -/
def specByteTrunc (dx dy x y cx cy droot padding : ℚ) : ℕ :=
  let side : ℚ := if dx * (y - cy) - dy * (x - cx) < 0 then -1 else 1
  let sdf := min (max (1/2 - side * (droot / padding * (1/2))) 0) 1
  (⌊(255 : ℚ) * sdf⌋).toNat

/-- A packed destination rectangle (`crunch::Rect`, pixel units). -/
structure Rect where
  x : ℕ
  y : ℕ
  w : ℕ
  h : ℕ

/-- `raster` (raster.rs lines 191–253): the nested destination-pixel
loop.  `Buffer::set_pixel` writes `data[y * width + x]`.  The per-pixel
SDF computation (segment search, tangent smoothing, byte encoding) is
abstracted as the oracle `pixel : dest_x → dest_y → Option ℕ` over the
pre-offset loop coordinates; `none` models a pixel with no nearest
segment, for which the source writes nothing. -/
def raster (data : List ℕ) (width : ℕ) (rect : Rect)
    (pixel : ℕ → ℕ → Option ℕ) : List ℕ :=
  (List.range (rect.h - 1)).foldl
    (fun buf dest_y =>
      (List.range (rect.w - 1)).foldl
        (fun buf' dest_x =>
          match pixel dest_x dest_y with
          | some value => buf'.set ((dest_y + rect.y) * width + (dest_x + rect.x)) value
          | none => buf')
        buf)
    data

/-! ### bisect.rs — the two bisection drivers

`crunch::Packer::with_items(..).pack(..)` is the external packer; for a
trial it either succeeds with a placement (`some`) or fails (`none`).
In `bisect_font_size` each trial packs the rects obtained from
`get_rastered_size` at the trial font size, so the trial outcome is a
function of the midpoint; likewise the first missing glyph reported
while building the rect list at a trial size is a function of the
midpoint (`missing`).  In `bisect_asset_size` the font size is fixed, so
the packing outcome is a function of the trial dimension and the missing
report is a constant. -/

/-- `crate::Error` (lib.rs lines 45–57). -/
inductive Error where
  | MissingGlyph (ch : Char)
  | PackingAtlasFailed
deriving DecidableEq

/-- `BisectArgs` (bisect.rs lines 6–10). -/
structure BisectArgs where
  lower_bound : ℚ
  too_big : ℚ
  attempts : ℕ

/-- The `loop` of `bisect_font_size` (bisect.rs lines 35–80).
`fuel` bounds the number of executed iterations (the Rust loop has no
such bound: `none` means the loop has not returned within `fuel`
iterations).  `ar` is `attempts_remaining`, decremented saturatingly at
the top of every iteration; the loop returns only from a successful
packing once `ar` has reached zero.  When a glyph is missing at the
trial size, both match arms return the `MissingGlyph` error regardless
of the packing outcome. -/
def fontLoop {α : Type} (pack : ℚ → Option α) (missing : ℚ → Option Char) :
    ℕ → ℕ → ℚ → ℚ → Option (Except Error (ℚ × α))
  | 0, _, _, _ => none
  | fuel + 1, ar, lower_bound, too_big =>
    let ar' := ar - 1
    let check_size := (lower_bound + too_big) / 2
    match pack check_size, missing check_size with
    | _, some ch => some (.error (.MissingGlyph ch))
    | some result, none =>
      if ar' = 0 then some (.ok (check_size, result))
      else fontLoop pack missing fuel ar' check_size too_big
    | none, none => fontLoop pack missing fuel ar' lower_bound check_size

/-- `bisect_font_size` (bisect.rs lines 12–81), up to `fuel` loop
iterations. -/
def bisect_font_size {α : Type} (pack : ℚ → Option α) (missing : ℚ → Option Char)
    (args : BisectArgs) (fuel : ℕ) : Option (Except Error (ℚ × α)) :=
  fontLoop pack missing fuel args.attempts args.lower_bound args.too_big

/-- The `while (too_small + 1) < upper_bound` loop of
`bisect_asset_size` (bisect.rs lines 137–157).  Each iteration packs at
`check_size = too_small + (upper_bound − too_small)/2`; when a glyph is
missing both arms abort with `MissingGlyph`. -/
def assetLoop {α : Type} (pack : ℕ → Option α) (missing : Option Char)
    (too_small upper_bound : ℕ) (result : α) : Except Error (ℕ × α) :=
  if h : too_small + 1 < upper_bound then
    let check_size := too_small + (upper_bound - too_small) / 2
    match pack check_size with
    | some res =>
      match missing with
      | some ch => .error (.MissingGlyph ch)
      | none => assetLoop pack missing too_small check_size res
    | none =>
      match missing with
      | some ch => .error (.MissingGlyph ch)
      | none => assetLoop pack missing check_size upper_bound result
  else .ok (upper_bound, result)
  termination_by upper_bound - too_small
  decreasing_by
  · have h2 : 2 ≤ upper_bound - too_small := by omega
    have : (upper_bound - too_small) / 2 < upper_bound - too_small := by omega
    omega
  · have h2 : 2 ≤ upper_bound - too_small := by omega
    have : 1 ≤ (upper_bound - too_small) / 2 := by omega
    omega

/-- `bisect_asset_size` (bisect.rs lines 83–159): the initial probe at
dimension 65535 (packing rect `w = h = u16::MAX`), then the bisection
loop.  `too_small` starts at `(⌊font_size⌋ clamped to [2, 65535]) − 1`.
With the font size fixed, `get_rastered_size`'s missing-glyph report is
the constant `missing`; both probe arms consult it before using the
packing outcome. -/
def bisect_asset_size {α : Type} (font_size : ℚ) (missing : Option Char)
    (pack : ℕ → Option α) : Except Error (ℕ × α) :=
  let too_small := (clampZ ⌊font_size⌋ 2 65535).toNat - 1
  match pack 65535 with
  | some res =>
    match missing with
    | some ch => .error (.MissingGlyph ch)
    | none => assetLoop pack missing too_small 65535 res
  | none =>
    match missing with
    | some ch => .error (.MissingGlyph ch)
    | none => .error .PackingAtlasFailed

/-! ### Helper lemmas on the nearest-t search -/

/-- The in-range Newton root a single seed contributes (composition of
`newtons_root` and the `(0.0..=1.0).contains` check). -/
def seedCand (dd : List ℚ) (s : ℚ) : Option ℚ :=
  match newtons_root dd s NEWTONS_ITERS with
  | some r => if 0 ≤ r ∧ r ≤ 1 then some r else none
  | none => none

/-- All in-range Newton roots contributed by a seed list. -/
def newtonCandidates (dd : List ℚ) (seeds : List ℚ) : List ℚ :=
  seeds.filterMap (seedCand dd)

theorem newtonCandidates_bounds (dd seeds : List ℚ) :
    ∀ r ∈ newtonCandidates dd seeds, 0 ≤ r ∧ r ≤ 1 := by
  intro r hr
  rcases List.mem_filterMap.1 hr with ⟨s, _, hs⟩
  unfold seedCand at hs
  rcases hroot : newtons_root dd s NEWTONS_ITERS with _ | root
  · simp only [hroot] at hs
    cases hs
  · simp only [hroot] at hs
    by_cases hrange : 0 ≤ root ∧ root ≤ 1
    · rw [if_pos hrange] at hs
      exact Option.some.inj hs ▸ hrange
    · rw [if_neg hrange] at hs
      cases hs

theorem nearestBestFold_step (distSq dd : List ℚ) (b : ℚ × ℚ) (s : ℚ) :
    (match newtons_root dd s NEWTONS_ITERS with
      | none => b
      | some root =>
        if 0 ≤ root ∧ root ≤ 1 then
          if polyValue distSq root < b.1 then (polyValue distSq root, root) else b
        else b)
    = match seedCand dd s with
      | none => b
      | some r => if polyValue distSq r < b.1 then (polyValue distSq r, r) else b := by
  unfold seedCand
  rcases newtons_root dd s NEWTONS_ITERS with _ | root
  · rfl
  · by_cases hrange : 0 ≤ root ∧ root ≤ 1 <;> simp [hrange]

theorem nearestBestFold_spec (distSq dd : List ℚ) :
    ∀ (seeds : List ℚ) (b : ℚ × ℚ), b.1 = polyValue distSq b.2 →
      (nearestBestFold distSq dd seeds b).1
          = polyValue distSq (nearestBestFold distSq dd seeds b).2 ∧
      ((nearestBestFold distSq dd seeds b).2 = b.2 ∨
        (nearestBestFold distSq dd seeds b).2 ∈ newtonCandidates dd seeds) ∧
      (nearestBestFold distSq dd seeds b).1 ≤ b.1 ∧
      ∀ c ∈ newtonCandidates dd seeds,
        (nearestBestFold distSq dd seeds b).1 ≤ polyValue distSq c := by
  intro seeds
  induction seeds with
  | nil =>
    intro b hb
    refine ⟨hb, Or.inl rfl, le_refl _, ?_⟩
    intro c hc
    simp [newtonCandidates] at hc
  | cons s rest ih =>
    intro b hb
    have hcands :
        newtonCandidates dd (s :: rest)
          = (seedCand dd s).toList ++ newtonCandidates dd rest := by
      unfold newtonCandidates
      rw [List.filterMap_cons]
      rcases seedCand dd s with _ | r <;> simp
    rcases hsc : seedCand dd s with _ | r
    · have hstep : nearestBestFold distSq dd (s :: rest) b
          = nearestBestFold distSq dd rest b := by
        unfold nearestBestFold
        rw [List.foldl_cons, nearestBestFold_step, hsc]
      rcases ih b hb with ⟨h1, h2, h3, h4⟩
      rw [hstep, hcands, hsc]
      refine ⟨h1, ?_, h3, ?_⟩
      · rcases h2 with h2 | h2
        · exact Or.inl h2
        · right; simpa using h2
      · intro c hc
        exact h4 c (by simpa using hc)
    · by_cases hlt : polyValue distSq r < b.1
      · have hstep : nearestBestFold distSq dd (s :: rest) b
            = nearestBestFold distSq dd rest (polyValue distSq r, r) := by
          unfold nearestBestFold
          rw [List.foldl_cons, nearestBestFold_step, hsc]
          simp only [if_pos hlt]
        rcases ih (polyValue distSq r, r) rfl with ⟨h1, h2, h3, h4⟩
        rw [hstep, hcands, hsc]
        refine ⟨h1, ?_, le_trans h3 (le_of_lt hlt), ?_⟩
        · right
          simp only [Option.toList_some, List.cons_append, List.nil_append, List.mem_cons]
          rcases h2 with h2 | h2
          · exact Or.inl h2
          · exact Or.inr h2
        · intro c hc
          simp only [Option.toList_some, List.cons_append, List.mem_cons,
            List.nil_append] at hc
          rcases hc with hc | hc
          · exact hc ▸ h3
          · exact h4 c (by simpa using hc)
      · have hstep : nearestBestFold distSq dd (s :: rest) b
            = nearestBestFold distSq dd rest b := by
          unfold nearestBestFold
          rw [List.foldl_cons, nearestBestFold_step, hsc]
          simp only [if_neg hlt]
        rcases ih b hb with ⟨h1, h2, h3, h4⟩
        rw [hstep, hcands, hsc]
        refine ⟨h1, ?_, h3, ?_⟩
        · rcases h2 with h2 | h2
          · exact Or.inl h2
          · right
            simp only [Option.toList_some, List.cons_append, List.nil_append, List.mem_cons]
            exact Or.inr h2
        · intro c hc
          simp only [Option.toList_some, List.cons_append, List.mem_cons,
            List.nil_append] at hc
          rcases hc with hc | hc
          · exact le_trans h3 (hc ▸ le_of_not_lt hlt)
          · exact h4 c (by simpa using hc)

theorem nearestTOf_spec (xp yp : List ℚ) (p : ℚ × ℚ) :
    (nearestTOf xp yp p = 0 ∨ nearestTOf xp yp p = 1 ∨
      nearestTOf xp yp p ∈
        newtonCandidates (polyDeriv (distSqPoly xp yp p)) newtonSeeds) ∧
    polyValue (distSqPoly xp yp p) (nearestTOf xp yp p)
        ≤ polyValue (distSqPoly xp yp p) 0 ∧
    polyValue (distSqPoly xp yp p) (nearestTOf xp yp p)
        ≤ polyValue (distSqPoly xp yp p) 1 ∧
    ∀ c ∈ newtonCandidates (polyDeriv (distSqPoly xp yp p)) newtonSeeds,
      polyValue (distSqPoly xp yp p) (nearestTOf xp yp p)
        ≤ polyValue (distSqPoly xp yp p) c := by
  by_cases hlt : polyValue (distSqPoly xp yp p) 0 < polyValue (distSqPoly xp yp p) 1
  · have hspec := nearestBestFold_spec (distSqPoly xp yp p)
      (polyDeriv (distSqPoly xp yp p)) newtonSeeds
      (polyValue (distSqPoly xp yp p) 0, 0) rfl
    have hres : nearestTOf xp yp p
        = (nearestBestFold (distSqPoly xp yp p) (polyDeriv (distSqPoly xp yp p))
            newtonSeeds (polyValue (distSqPoly xp yp p) 0, 0)).2 := by
      simp only [nearestTOf]
      rw [if_pos hlt]
    rcases hspec with ⟨h1, h2, h3, h4⟩
    rw [← hres] at h1 h2
    refine ⟨?_, ?_, ?_, ?_⟩
    · rcases h2 with h2 | h2
      · exact Or.inl h2
      · exact Or.inr (Or.inr h2)
    · rw [h1] at h3; exact h3
    · rw [h1] at h3; exact le_trans h3 (le_of_lt hlt)
    · intro c hc; rw [h1] at h4; exact h4 c hc
  · have hspec := nearestBestFold_spec (distSqPoly xp yp p)
      (polyDeriv (distSqPoly xp yp p)) newtonSeeds
      (polyValue (distSqPoly xp yp p) 1, 1) rfl
    have hres : nearestTOf xp yp p
        = (nearestBestFold (distSqPoly xp yp p) (polyDeriv (distSqPoly xp yp p))
            newtonSeeds (polyValue (distSqPoly xp yp p) 1, 1)).2 := by
      simp only [nearestTOf]
      rw [if_neg hlt]
    rcases hspec with ⟨h1, h2, h3, h4⟩
    rw [← hres] at h1 h2
    refine ⟨?_, ?_, ?_, ?_⟩
    · rcases h2 with h2 | h2
      · exact Or.inr (Or.inl h2)
      · exact Or.inr (Or.inr h2)
    · rw [h1] at h3; exact le_trans h3 (le_of_not_lt hlt)
    · rw [h1] at h3; exact h3
    · intro c hc; rw [h1] at h4; exact h4 c hc

/-! ### Claim theorems -/

/-- C9: for every Line, QuadCurve and CubicCurve built from its control
points, `point 0` is exactly the start point and `point 1` is exactly
the end point. -/
theorem point_endpoints_c9 (s c ce e : ℚ × ℚ) :
    Line.point ⟨s, e⟩ 0 = s ∧ Line.point ⟨s, e⟩ 1 = e ∧
    (QuadCurve.new s c e).point 0 = s ∧ (QuadCurve.new s c e).point 1 = e ∧
    (CubicCurve.new s c ce e).point 0 = s ∧ (CubicCurve.new s c ce e).point 1 = e := by
  refine ⟨?_, ?_, ?_, ?_, ?_, ?_⟩ <;>
  · simp only [Line.point, QuadCurve.point, CubicCurve.point, QuadCurve.new,
      CubicCurve.new, polyValue, List.foldl, Prod.ext_iff]
    constructor <;> ring

/-- C7: `QuadCurve::nearest_t` and `CubicCurve::nearest_t` seed the
running best with the better of the endpoints t = 0 and t = 1, refine a
root of the squared-distance derivative by exactly `NEWTONS_ITERS = 4`
Newton iterations from each of the five seeds 0, 0.25, 0.5, 0.75, 1,
discard roots outside [0,1], and return a candidate minimizing the
squared distance among the endpoints and the retained roots. -/
theorem nearest_t_minimizes_c7 (s c ce e p : ℚ × ℚ) :
    ((QuadCurve.new s c e).nearest_t p ∈
        (0 : ℚ) :: 1 ::
          newtonCandidates
            (polyDeriv (distSqPoly (QuadCurve.new s c e).x_poly
              (QuadCurve.new s c e).y_poly p)) newtonSeeds ∧
      ∀ t ∈ (0 : ℚ) :: 1 ::
          newtonCandidates
            (polyDeriv (distSqPoly (QuadCurve.new s c e).x_poly
              (QuadCurve.new s c e).y_poly p)) newtonSeeds,
        polyValue (distSqPoly (QuadCurve.new s c e).x_poly
            (QuadCurve.new s c e).y_poly p) ((QuadCurve.new s c e).nearest_t p)
          ≤ polyValue (distSqPoly (QuadCurve.new s c e).x_poly
              (QuadCurve.new s c e).y_poly p) t) ∧
    ((CubicCurve.new s c ce e).nearest_t p ∈
        (0 : ℚ) :: 1 ::
          newtonCandidates
            (polyDeriv (distSqPoly (CubicCurve.new s c ce e).x_poly
              (CubicCurve.new s c ce e).y_poly p)) newtonSeeds ∧
      ∀ t ∈ (0 : ℚ) :: 1 ::
          newtonCandidates
            (polyDeriv (distSqPoly (CubicCurve.new s c ce e).x_poly
              (CubicCurve.new s c ce e).y_poly p)) newtonSeeds,
        polyValue (distSqPoly (CubicCurve.new s c ce e).x_poly
            (CubicCurve.new s c ce e).y_poly p) ((CubicCurve.new s c ce e).nearest_t p)
          ≤ polyValue (distSqPoly (CubicCurve.new s c ce e).x_poly
              (CubicCurve.new s c ce e).y_poly p) t) := by
  constructor
  · rcases nearestTOf_spec (QuadCurve.new s c e).x_poly (QuadCurve.new s c e).y_poly p
      with ⟨h1, h2, h3, h4⟩
    refine ⟨?_, ?_⟩
    · rcases h1 with h | h | h
      · exact h ▸ List.mem_cons_self _ _
      · exact List.mem_cons_of_mem _ (h ▸ List.mem_cons_self _ _)
      · exact List.mem_cons_of_mem _ (List.mem_cons_of_mem _ h)
    · intro t ht
      rcases List.mem_cons.1 ht with rfl | ht
      · exact h2
      rcases List.mem_cons.1 ht with rfl | ht
      · exact h3
      · exact h4 t ht
  · rcases nearestTOf_spec (CubicCurve.new s c ce e).x_poly (CubicCurve.new s c ce e).y_poly p
      with ⟨h1, h2, h3, h4⟩
    refine ⟨?_, ?_⟩
    · rcases h1 with h | h | h
      · exact h ▸ List.mem_cons_self _ _
      · exact List.mem_cons_of_mem _ (h ▸ List.mem_cons_self _ _)
      · exact List.mem_cons_of_mem _ (List.mem_cons_of_mem _ h)
    · intro t ht
      rcases List.mem_cons.1 ht with rfl | ht
      · exact h2
      rcases List.mem_cons.1 ht with rfl | ht
      · exact h3
      · exact h4 t ht

/-- C8: for every Line, QuadCurve and CubicCurve and every query point,
`nearest_t` returns a parameter inside [0,1]; non-finite intermediates
(modelled as `none` / rejected guards) never escape because the range
check discards them and the fallback candidates are the endpoints. -/
theorem nearest_t_in_unit_c8 (a b s c ce e p : ℚ × ℚ) :
    (0 ≤ Line.nearest_t ⟨a, b⟩ p ∧ Line.nearest_t ⟨a, b⟩ p ≤ 1) ∧
    (0 ≤ (QuadCurve.new s c e).nearest_t p ∧ (QuadCurve.new s c e).nearest_t p ≤ 1) ∧
    (0 ≤ (CubicCurve.new s c ce e).nearest_t p ∧ (CubicCurve.new s c ce e).nearest_t p ≤ 1) := by
  refine ⟨?_, ?_, ?_⟩
  · simp only [Line.nearest_t]
    split
    · next h => exact ⟨h.2.1, h.2.2⟩
    · split <;> norm_num
  · rcases nearestTOf_spec (QuadCurve.new s c e).x_poly (QuadCurve.new s c e).y_poly p
      with ⟨h1, -, -, -⟩
    rcases h1 with h | h | h
    · rw [QuadCurve.nearest_t, h]; norm_num
    · rw [QuadCurve.nearest_t, h]; norm_num
    · exact newtonCandidates_bounds _ _ _ h
  · rcases nearestTOf_spec (CubicCurve.new s c ce e).x_poly (CubicCurve.new s c ce e).y_poly p
      with ⟨h1, -, -, -⟩
    rcases h1 with h | h | h
    · rw [CubicCurve.nearest_t, h]; norm_num
    · rw [CubicCurve.nearest_t, h]; norm_num
    · exact newtonCandidates_bounds _ _ _ h

/-- A face with no glyph for any codepoint. -/
def faceNoGlyph : FontFace :=
  { height := 1000, glyphIndex := fun _ => none, glyphBoundingBox := fun _ => none }

/-- A face whose glyphs exist but have no bounding box. -/
def faceNoBBox : FontFace :=
  { height := 1000, glyphIndex := fun _ => some 0, glyphBoundingBox := fun _ => none }

/-- C1: on a face with no glyph index (or no bounding box) for the
requested codepoint, `get_rastered_size` does not return a
`MissingGlyph` error value at all — it panics (the explicit `panic!` for
a missing glyph index, the `.unwrap()` for a missing bounding box),
modelled here as the `RasterPanic` exceptions.  This contradicts the
claim and the repository's own callers in bisect.rs, which match on a
`Result` and expect `Err` to carry the codepoint. -/
theorem get_rastered_size_panics_c1 :
    get_rastered_size (1/10) false 32 faceNoGlyph 'A' = .error .glyphNotFound ∧
    get_rastered_size (1/10) false 32 faceNoBBox 'A' = .error .noBoundingBox :=
  ⟨rfl, rfl⟩

/-- A concrete face exercising the pixel-extent rounding: height 10,
one glyph whose bounding box is `(0,0)–(3,3)`. -/
def faceRound : FontFace :=
  { height := 10, glyphIndex := fun _ => some 7
    glyphBoundingBox := fun _ => some ⟨0, 0, 3, 3⟩ }

/-- C6 counterexample: at padding 0.1 and font size 5 the expanded width
is `(right − left) = 1/2`, so `width · font_size = 5/2`.  The source's
`f32::round` (ties away from zero) yields pixel_width 3, while the
round-half-to-even rounding the claim prescribes yields 2. -/
theorem pixel_extent_rounding_c6_cex :
    get_rastered_size (1/10) false 5 faceRound 'A'
      = .ok { pixel_width := 3, pixel_height := 3
              left := -(1/10), right := 2/5, top := 2/5, bottom := -(1/10)
              left_clamped := -(1/10), left_clamped_internal_raster := -(1/10) } ∧
    (clampZ (roundHalfToEven (((2 : ℚ)/5 - -(1/10)) * 5)) 0 65535).toNat = 2 ∧
    (3 : ℕ) ≠ 2 := by
  refine ⟨?_, ?_, by decide⟩
  · simp only [get_rastered_size, faceRound, rustRound, clampZ]
    norm_num [RasteredSize.mk.injEq]
    omega
  · norm_num [roundHalfToEven, clampZ]
    omega

/-- C6 (amended): on the success path (no left clamp), the pixel extents
are `round(width · font_size)` and `round(height · font_size)` with
`width = right − left` and `height = top − bottom`, where the rounding
is `f32::round` — round to nearest with ties away from zero, not ties to
even — and the result is clamped to [0, 65535] before narrowing. -/
theorem pixel_extent_rounding_c6 (padding_ratio font_size : ℚ) (face : FontFace)
    (ch : Char) (rs : RasteredSize)
    (h : get_rastered_size padding_ratio false font_size face ch = .ok rs) :
    rs.pixel_width = (clampZ (rustRound ((rs.right - rs.left) * font_size)) 0 65535).toNat ∧
    rs.pixel_height = (clampZ (rustRound ((rs.top - rs.bottom) * font_size)) 0 65535).toNat := by
  simp only [get_rastered_size] at h
  rcases hgi : face.glyphIndex ch with _ | glyph_id
  · simp only [hgi] at h
    cases h
  simp only [hgi] at h
  rcases hbb : face.glyphBoundingBox glyph_id with _ | bbox
  · simp only [hbb] at h
    cases h
  simp only [hbb] at h
  simp only [Bool.false_eq_true, if_false, Except.ok.injEq] at h
  subst h
  refine ⟨?_, ?_⟩
  · dsimp only
    have harg :
        ((bbox.x_max : ℚ) / (face.height : ℚ) + padding_ratio
            - ((bbox.x_min : ℚ) / (face.height : ℚ) - padding_ratio))
          = (((bbox.x_max - bbox.x_min : ℤ) : ℚ) / (face.height : ℚ)
              + padding_ratio + padding_ratio) := by
      push_cast
      ring
    rw [harg]
  · dsimp only
    have harg :
        ((bbox.y_max : ℚ) / (face.height : ℚ) + padding_ratio
            - ((bbox.y_min : ℚ) / (face.height : ℚ) - padding_ratio))
          = (((bbox.y_max - bbox.y_min : ℤ) : ℚ) / (face.height : ℚ)
              + 2 * padding_ratio) := by
      push_cast
      ring
    rw [harg]

/-- C6 witness: the amended rounding law evaluated on the concrete face
`faceRound` at padding 0.1 and font size 5. -/
theorem pixel_extent_rounding_c6_witness :
    (3 : ℕ) = (clampZ (rustRound (((2 : ℚ)/5 - -(1/10)) * 5)) 0 65535).toNat ∧
    (3 : ℕ) = (clampZ (rustRound (((2 : ℚ)/5 - -(1/10)) * 5)) 0 65535).toNat :=
  pixel_extent_rounding_c6 (1/10) 5 faceRound 'A'
    { pixel_width := 3, pixel_height := 3
      left := -(1/10), right := 2/5, top := 2/5, bottom := -(1/10)
      left_clamped := -(1/10), left_clamped_internal_raster := -(1/10) }
    (by
      simp only [get_rastered_size, faceRound, rustRound, clampZ]
      norm_num [RasteredSize.mk.injEq]
      omega)

/-- C5 counterexample: a pixel strictly inside the outline
(`curve_side = −1`) at normalized distance 3/10: the SDF value is 0.65,
`255 · 0.65 = 165.75`; the source's `as u8` narrowing truncates to 165,
while the claimed `round(255 · sdf)` gives 166. -/
theorem raster_byte_rounding_c5_cex :
    rasterByte 0 1 1 0 0 0 (3/10) 1 = 165 ∧
    specByteRound 0 1 1 0 0 0 (3/10) 1 = 166 ∧
    (165 : ℕ) ≠ 166 := by
  refine ⟨?_, ?_, by decide⟩
  · norm_num [rasterByte]
    omega
  · norm_num [specByteRound, round_eq]
    omega

/-- C5 (amended): the byte written for a pixel with a nearest segment is
the truncation `⌊255 · sdf⌋` of the clamped signed-distance value — the
`as u8` cast rounds toward zero — not `round(255 · sdf)`; and it always
fits in a byte. -/
theorem clampedByteLe (sd : ℚ) : (⌊(255 : ℚ) * (min (max sd 0) 1)⌋).toNat ≤ 255 := by
  have h1 : min (max sd 0) 1 ≤ 1 := min_le_right _ _
  have h2 : (255 : ℚ) * (min (max sd 0) 1) ≤ 255 := by nlinarith
  have h3 : ⌊(255 : ℚ) * (min (max sd 0) 1)⌋ ≤ 255 := by
    calc ⌊(255 : ℚ) * (min (max sd 0) 1)⌋ ≤ ⌊(255 : ℚ)⌋ := Int.floor_le_floor h2
    _ = 255 := by norm_num
  omega

theorem raster_byte_trunc_c5 (dx dy x y cx cy droot padding : ℚ) :
    rasterByte dx dy x y cx cy droot padding
      = specByteTrunc dx dy x y cx cy droot padding ∧
    rasterByte dx dy x y cx cy droot padding ≤ 255 := by
  constructor
  · rfl
  · simp only [rasterByte]
    exact clampedByteLe _

/-! ### Bisection driver lemmas and claims -/

theorem fontLoop_allOk {α : Type} (pack : ℚ → Option α)
    (hall : ∀ m, (pack m).isSome) :
    ∀ (a : ℕ) (L U : ℚ),
      fontLoop pack (fun _ => none) (a + 1) (a + 1) L U
        = (pack (U - (U - L) / 2 ^ (a + 1))).map
            (fun r => Except.ok (U - (U - L) / 2 ^ (a + 1), r)) ∧
      fontLoop pack (fun _ => none) a (a + 1) L U = none := by
  intro a
  induction a with
  | zero =>
    intro L U
    rcases hp : pack ((L + U) / 2) with _ | r
    · exfalso
      have hs := hall ((L + U) / 2)
      rw [hp] at hs
      simp at hs
    · have hmid : U - (U - L) / 2 ^ 1 = (L + U) / 2 := by ring
      have hL : fontLoop pack (fun _ => none) 1 1 L U = some (Except.ok ((L + U) / 2, r)) := by
        simp [fontLoop, hp]
      rw [hmid, hL, hp]
      exact ⟨rfl, rfl⟩
  | succ n ih =>
    intro L U
    rcases hp : pack ((L + U) / 2) with _ | r
    · exfalso
      have hs := hall ((L + U) / 2)
      rw [hp] at hs
      simp at hs
    · have step1 : fontLoop pack (fun _ => none) (n + 1 + 1) (n + 1 + 1) L U
          = fontLoop pack (fun _ => none) (n + 1) (n + 1) ((L + U) / 2) U := by
        simp only [fontLoop, hp, Nat.add_sub_cancel]
        rw [if_neg (Nat.succ_ne_zero n)]
      have step2 : fontLoop pack (fun _ => none) (n + 1) (n + 1 + 1) L U
          = fontLoop pack (fun _ => none) n (n + 1) ((L + U) / 2) U := by
        simp only [fontLoop, hp, Nat.add_sub_cancel]
        rw [if_neg (Nat.succ_ne_zero n)]
      rcases ih ((L + U) / 2) U with ⟨ih1, ih2⟩
      have hmid : U - (U - (L + U) / 2) / 2 ^ (n + 1) = U - (U - L) / 2 ^ (n + 1 + 1) := by
        have h2 : ((2 : ℚ) ^ (n + 1)) ≠ 0 := pow_ne_zero _ two_ne_zero
        field_simp
        ring
      constructor
      · rw [step1, ih1, hmid]
      · rw [step2, ih2]

/-- C2 (amended): the texture-size bisection performs at least its
11-attempt budget — it has produced no result after 10 loop iterations —
and, when every trial packing succeeds, it performs exactly 11 attempts
and returns the 11th midpoint `U − (U − L)/2¹¹` together with that
attempt's packing.  (The counterexample shows that when an attempt from
the 11th onward fails to pack, the loop keeps running past the budget
until a packing succeeds, so "exactly 11 attempts, then terminate" does
not hold unconditionally.) -/
theorem bisect_font_size_budget_c2 {α : Type} (pack : ℚ → Option α)
    (hall : ∀ m, (pack m).isSome) (L U : ℚ) :
    bisect_font_size pack (fun _ => none) ⟨L, U, 11⟩ 11
      = (pack (U - (U - L) / 2 ^ 11)).map
          (fun r => Except.ok (U - (U - L) / 2 ^ 11, r)) ∧
    bisect_font_size pack (fun _ => none) ⟨L, U, 11⟩ 10 = none :=
  fontLoop_allOk pack hall 10 L U

/-- A packer that succeeds exactly at font sizes ≤ 3/2. -/
def packThreshold : ℚ → Option Unit := fun m => if m ≤ 3/2 then some () else none

/-- A packer that always succeeds. -/
def packAlways : ℚ → Option Unit := fun _ => some ()

/-- C2 counterexample: with the Mode-A arguments lib.rs uses for a
2-pixel-tall texture (lower bound 1, too_big 8·2 = 16, 11 attempts) and
the packer `packThreshold`, the bisection has returned nothing after 11
loop iterations — refuting "exactly 11 attempts, then terminate" — and
first returns on the 13th iteration. -/
theorem bisect_font_size_budget_c2_cex :
    bisect_font_size packThreshold (fun _ => none) ⟨1, 16, 11⟩ 11 = none ∧
    (bisect_font_size packThreshold (fun _ => none) ⟨1, 16, 11⟩ 13).isSome = true := by
  constructor
  · norm_num [bisect_font_size, fontLoop, packThreshold]
  · norm_num [bisect_font_size, fontLoop, packThreshold]

/-- C2 witness: the amended budget law at the always-succeeding packer
with the lib.rs arguments for height 2. -/
theorem bisect_font_size_budget_c2_witness :
    bisect_font_size packAlways (fun _ => none) ⟨1, 16, 11⟩ 11
      = some (Except.ok (16 - (16 - 1) / 2 ^ 11, ())) ∧
    bisect_font_size packAlways (fun _ => none) ⟨1, 16, 11⟩ 10 = none :=
  ⟨(bisect_font_size_budget_c2 packAlways (fun _ => rfl) 1 16).1.trans rfl,
    (bisect_font_size_budget_c2 packAlways (fun _ => rfl) 1 16).2⟩

theorem assetLoop_ok {α : Type} (pack : ℕ → Option α) :
    ∀ (n ts up : ℕ) (res : α), up - ts ≤ n →
      ∃ out, assetLoop pack none ts up res = Except.ok out := by
  intro n
  induction n with
  | zero =>
    intro ts up res h
    rw [assetLoop, dif_neg (by omega)]
    exact ⟨(up, res), rfl⟩
  | succ n ih =>
    intro ts up res h
    by_cases hg : ts + 1 < up
    · rw [assetLoop, dif_pos hg]
      rcases hp : pack (ts + (up - ts) / 2) with _ | r <;> simp only [hp]
      · exact ih (ts + (up - ts) / 2) up res (by omega)
      · exact ih ts (ts + (up - ts) / 2) r (by omega)
    · rw [assetLoop, dif_neg hg]
      exact ⟨(up, res), rfl⟩

/-- C3: in font-size mode with every glyph present, the build fails with
`PackingAtlasFailed` exactly when the initial probe packing at dimension
65535 fails; when the probe succeeds, the bisection loop only ever
returns a successful `(dimension, packing)` pair, never
`PackingAtlasFailed`. -/
theorem bisect_asset_size_probe_c3 {α : Type} (font_size : ℚ) (pack : ℕ → Option α) :
    bisect_asset_size font_size none pack = Except.error Error.PackingAtlasFailed
      ↔ pack 65535 = none := by
  unfold bisect_asset_size
  rcases hp : pack 65535 with _ | res
  · simp only [hp]
  · simp only [hp]
    rcases assetLoop_ok pack 65535 ((clampZ ⌊font_size⌋ 2 65535).toNat - 1) 65535 res
      (Nat.sub_le _ _) with ⟨out, hout⟩
    rw [hout]
    simp

/-- C4: in both bisection modes, a glyph reported missing at the current
trial aborts the driver with `MissingGlyph` for that codepoint,
whatever the trial packing outcome is (the theorem holds for every
packing oracle, and both match arms of each driver consult the
missing-glyph report first). -/
theorem missing_glyph_precedence_c4 {α β : Type} (pack : ℚ → Option α)
    (missing : ℚ → Option Char) (fuel ar : ℕ) (L U : ℚ) (ch : Char)
    (h : missing ((L + U) / 2) = some ch) :
    fontLoop pack missing (fuel + 1) ar L U
      = some (Except.error (Error.MissingGlyph ch)) ∧
    ∀ (font_size : ℚ) (ch2 : Char) (pack2 : ℕ → Option β),
      bisect_asset_size font_size (some ch2) pack2
        = Except.error (Error.MissingGlyph ch2) := by
  constructor
  · simp only [fontLoop, h]
  · intro font_size ch2 pack2
    unfold bisect_asset_size
    rcases hp : pack2 65535 with _ | r <;> simp only [hp]

/-- The missing-glyph report used by the C4 witness. -/
def missingW : ℚ → Option Char := fun _ => some 'W'

/-- An always-succeeding Mode-A packer for the C4 witness. -/
def packOkC4 : ℚ → Option Unit := fun _ => some ()

/-- An always-failing Mode-B packer for the C4 witness: even though the
probe packing fails, the missing glyph wins over `PackingAtlasFailed`. -/
def packFailC4 : ℕ → Option Unit := fun _ => none

/-- C4 witness: the precedence law at concrete oracles, including a
Mode-B packer whose probe fails (the error is still `MissingGlyph`). -/
theorem missing_glyph_precedence_c4_witness :
    missingW ((1 + 16) / 2) = some 'W' ∧
    fontLoop packOkC4 missingW 1 11 1 16
      = some (Except.error (Error.MissingGlyph 'W')) ∧
    bisect_asset_size 30 (some 'W') packFailC4
      = Except.error (Error.MissingGlyph 'W') :=
  ⟨rfl,
    (@missing_glyph_precedence_c4 Unit Unit packOkC4 missingW 0 11 1 16 'W' rfl).1,
    (@missing_glyph_precedence_c4 Unit Unit packOkC4 missingW 0 11 1 16 'W' rfl).2
      30 'W' packFailC4⟩

/-! ### Raster frame effect -/

theorem foldl_preserve {β : Type} (l : List β) (f : List ℕ → β → List ℕ)
    (b : List ℕ) (i : ℕ)
    (h : ∀ (buf : List ℕ), ∀ k ∈ l, (f buf k)[i]? = buf[i]?) :
    (l.foldl f b)[i]? = b[i]? := by
  induction l generalizing b with
  | nil => rfl
  | cons hd tl ih =>
    rw [List.foldl_cons,
      ih (f b hd) (fun buf k hk => h buf k (List.mem_cons_of_mem _ hk)),
      h b hd (List.mem_cons_self _ _)]

/-- C10: `raster` writes only inside the rectangle's interior: a byte at
pixel coordinates `(x, y)` with `x` outside `[rect.x, rect.x+rect.w−1)`
or `y` outside `[rect.y, rect.y+rect.h−1)` is unchanged.  The
hypotheses state that the rectangle lies within the buffer's row width,
so that row-major indices decode uniquely to pixel coordinates. -/
theorem raster_frame_c10 (data : List ℕ) (width : ℕ) (rect : Rect)
    (pixel : ℕ → ℕ → Option ℕ) (i : ℕ) (hw : 0 < width)
    (hfit : rect.x + rect.w ≤ width + 1)
    (hout : ¬(rect.x ≤ i % width ∧ i % width < rect.x + rect.w - 1 ∧
              rect.y ≤ i / width ∧ i / width < rect.y + rect.h - 1)) :
    (raster data width rect pixel)[i]? = data[i]? := by
  unfold raster
  apply foldl_preserve
  intro buf dy hdy
  apply foldl_preserve
  intro buf' dx hdx
  have hdy' : dy < rect.h - 1 := List.mem_range.1 hdy
  have hdx' : dx < rect.w - 1 := List.mem_range.1 hdx
  rcases hpx : pixel dx dy with _ | v <;> simp only [hpx]
  apply List.getElem?_set_ne
  intro hji
  have hxlt : dx + rect.x < width := by omega
  have hmod : ((dy + rect.y) * width + (dx + rect.x)) % width = dx + rect.x := by
    rw [Nat.mul_add_mod']
    exact Nat.mod_eq_of_lt hxlt
  have hdiv : ((dy + rect.y) * width + (dx + rect.x)) / width = dy + rect.y := by
    rw [Nat.mul_comm (dy + rect.y) width, Nat.mul_add_div hw,
      Nat.div_eq_of_lt hxlt]
    omega
  rw [hji] at hmod hdiv
  exact hout ⟨by omega, by omega, by omega, by omega⟩

/-- C10 witness: the frame property evaluated at a concrete buffer,
rectangle and pixel oracle, at the out-of-region index 0. -/
theorem raster_frame_c10_witness :
    (raster (List.replicate 9 7) 3 ⟨1, 1, 2, 2⟩ (fun _ _ => some 0))[0]?
      = (List.replicate 9 7)[0]? :=
  raster_frame_c10 (List.replicate 9 7) 3 ⟨1, 1, 2, 2⟩ (fun _ _ => some 0) 0
    (by decide) (by decide) (by decide)

end Blurry
